import Mathlib

/-!
Verification model of the OpenAI plugin for genkit-go found in this
repository (package `plugins/openai`).  The translation layer between the
generic `ai.GenerateRequest` / `ai.GenerateResponse` model and the
`go-openai` chat-completion wire types is embedded shallowly:

* Go `map[string]any` values that are JSON-representable are modelled by the
  inductive `JS` (numbers as exact integers: the spec-level model uses exact
  arithmetic instead of IEEE floats, and Go's float formatting round-trips);
* `encoding/json` marshalling (`json.Marshal` on such maps) is modelled by a
  character-level encoder that mirrors Go's output: quotes/backslashes
  escaped, control characters and the HTML-escaped set emitted as `\uXXXX`
  sequences, map iteration yielding the association-list order;
* `json.Unmarshal` into `map[string]any` is modelled by a fuel-indexed
  recursive-descent parser over the character list; later duplicate object
  keys overwrite earlier ones, as Go's decoder does;
* Go panics (explicit `panic(...)`, out-of-range indexing, nil dereference)
  are modelled by the `TransErr.crash` constructor, distinct from returned
  errors (`TransErr.failure`).
-/

/-- Model of a Go `error` outcome versus a Go `panic` outcome, so the two
failure modes of the plugin stay distinguishable. -/
inductive TransErr where
  | failure (msg : String)
  | crash (msg : String)
deriving DecidableEq

/-- JSON-representable Go values (`any` holding what `encoding/json` can
produce): null, booleans, exact numbers, strings, arrays, string-keyed
objects. -/
inductive JS where
  | null
  | bool (b : Bool)
  | num (n : Int)
  | str (s : String)
  | arr (elems : List JS)
  | obj (fields : List (String × JS))

/-- A Go `map[string]any` holding JSON-representable values, as an
association list. -/
abbrev JSMap := List (String × JS)

/-! ### Character-level helpers shared by the encoder and the decoder -/

/-- The double-quote character, written by code point. -/
def quoteC : Char := Char.ofNat 34

/-- The backslash character, written by code point. -/
def backC : Char := Char.ofNat 92

/-- The opening-brace character, written by code point. -/
def lbraceC : Char := Char.ofNat 123

/-- The closing-brace character, written by code point. -/
def rbraceC : Char := Char.ofNat 125

/-- Lower-case hexadecimal digit for `n < 16`, as Go's JSON encoder emits. -/
def hexDigit (n : Nat) : Char :=
  if n < 10 then Char.ofNat (48 + n) else Char.ofNat (87 + n)

/-- Numeric value of a hexadecimal digit character (Go's decoder accepts
both cases). -/
def fromHexDigit (c : Char) : Option Nat :=
  if c.isDigit then some (c.toNat - 48)
  else if 97 ≤ c.toNat ∧ c.toNat ≤ 102 then some (c.toNat - 87)
  else if 65 ≤ c.toNat ∧ c.toNat ≤ 70 then some (c.toNat - 55)
  else none

/-- Decimal digit character for `d < 10`. -/
def digitChar (d : Nat) : Char := Char.ofNat (48 + d)

/-- One character of a JSON string, encoded the way Go's `json.Marshal`
does: quote and backslash get a backslash escape, newline/carriage
return/tab use their short escapes, other control characters and the
HTML-escaped set (`<`, `>`, `&`, U+2028, U+2029) become `\uXXXX`. -/
def encChar (c : Char) : List Char :=
  if c = quoteC then [backC, quoteC]
  else if c = backC then [backC, backC]
  else if c.toNat = 10 then [backC, 'n']
  else if c.toNat = 13 then [backC, 'r']
  else if c.toNat = 9 then [backC, 't']
  else if c.toNat < 32 ∨ c = '<' ∨ c = '>' ∨ c = '&' ∨
      c.toNat = 8232 ∨ c.toNat = 8233 then
    [backC, 'u', hexDigit (c.toNat / 4096 % 16), hexDigit (c.toNat / 256 % 16),
      hexDigit (c.toNat / 16 % 16), hexDigit (c.toNat % 16)]
  else [c]

/-- JSON-escape a whole character list. -/
def encChars : List Char → List Char
  | [] => []
  | c :: t => encChar c ++ encChars t

/-- A rendered JSON string: opening quote, escaped body, closing quote. -/
def encStrL (s : String) : List Char := quoteC :: (encChars s.data ++ [quoteC])

/-- Decimal digit characters of a natural number, most significant first. -/
def encNat (n : Nat) : List Char :=
  if n = 0 then [digitChar 0] else (Nat.digits 10 n).reverse.map digitChar

/-- Decimal rendering of an integer: optional minus sign, then digits. -/
def encInt (i : Int) : List Char :=
  if i < 0 then '-' :: encNat i.natAbs else encNat i.natAbs

mutual
/-- Model of `json.Marshal` on a JSON-representable value, producing the
character list Go would produce (object fields in the association-list
order, which models Go's deterministic sorted-key iteration). -/
def encVal : JS → List Char
  | .str s => encStrL s
  | .num i => encInt i
  | .bool b => if b then "true".data else "false".data
  | .null => "null".data
  | .arr xs => '[' :: (encElems xs ++ [']'])
  | .obj fs => lbraceC :: (encFields fs ++ [rbraceC])

/-- Comma-separated rendering of array elements. -/
def encElems : List JS → List Char
  | [] => []
  | [x] => encVal x
  | x :: y :: t => encVal x ++ ',' :: encElems (y :: t)

/-- Comma-separated rendering of object members. -/
def encFields : JSMap → List Char
  | [] => []
  | [(k, v)] => encStrL k ++ ':' :: encVal v
  | (k, v) :: p :: t => encStrL k ++ ':' :: encVal v ++ ',' :: encFields (p :: t)
end

/-! ### The decoder (model of `json.Unmarshal` into `map[string]any`) -/

/-- Unescape a single-character JSON escape code. -/
def unescapeChar (e : Char) : Option Char :=
  if e = quoteC then some quoteC
  else if e = backC then some backC
  else if e = '/' then some '/'
  else if e = 'n' then some (Char.ofNat 10)
  else if e = 'r' then some (Char.ofNat 13)
  else if e = 't' then some (Char.ofNat 9)
  else if e = 'b' then some (Char.ofNat 8)
  else if e = 'f' then some (Char.ofNat 12)
  else none

/-- Decode a `\uXXXX` escape: four hex digits, then the remainder. -/
def parseUHex : List Char → Option (Char × List Char)
  | h1 :: h2 :: h3 :: h4 :: r2 =>
    (fromHexDigit h1).bind (fun a =>
      (fromHexDigit h2).bind (fun b =>
        (fromHexDigit h3).bind (fun g =>
          (fromHexDigit h4).map (fun d =>
            (Char.ofNat (((a * 16 + b) * 16 + g) * 16 + d), r2)))))
  | _ => none

/-- Decode one escape sequence (the input starts right after a backslash),
returning the decoded character and the remainder. -/
def decodeEscape : List Char → Option (Char × List Char)
  | [] => none
  | e :: r1 =>
    if e = 'u' then parseUHex r1
    else (unescapeChar e).map (fun ch => (ch, r1))

/-- Parse the body of a JSON string after its opening quote, returning the
decoded characters and the remainder after the closing quote.  The fuel
only bounds the number of steps; callers pass the input length plus one,
which always suffices. -/
def parseStrBody : Nat → List Char → Option (List Char × List Char)
  | 0, _ => none
  | _ + 1, [] => none
  | f + 1, c :: r =>
    if c = quoteC then some ([], r)
    else if c = backC then
      (decodeEscape r).bind (fun p =>
        (parseStrBody f p.2).map (fun q => (p.1 :: q.1, q.2)))
    else (parseStrBody f r).map (fun q => (c :: q.1, q.2))

/-- Split off the maximal leading run of decimal digit characters. -/
def takeDigits : List Char → List Char × List Char
  | [] => ([], [])
  | c :: r =>
    if c.isDigit then
      let p := takeDigits r
      (c :: p.1, p.2)
    else ([], c :: r)

/-- Numeric value of a big-endian list of decimal digit characters. -/
def digitsToNat (ds : List Char) : Nat :=
  ds.foldl (fun a c => 10 * a + (c.toNat - 48)) 0

/-- Parse a nonempty run of decimal digits into a natural number. -/
def parseDigitsNat (l : List Char) : Option (Nat × List Char) :=
  match takeDigits l with
  | ([], _) => none
  | (ds, r) => some (digitsToNat ds, r)

/-- Consume an expected literal character sequence. -/
def expectLit : List Char → List Char → Option (List Char)
  | [], l => some l
  | _ :: _, [] => none
  | c :: p, d :: l => if d = c then expectLit p l else none

/-- Go's decoder keeps the existing entry when a key reappears later: the
later occurrence (already in `m`, which holds the fields to the right)
overwrites the earlier one being inserted here. -/
def insertField (k : String) (v : JS) (m : JSMap) : JSMap :=
  if (m.lookup k).isSome then m else (k, v) :: m

mutual
/-- Fuel-indexed recursive-descent parser for one JSON value.  The fuel only
bounds recursion depth; `jsonStringToMap` supplies enough for any input. -/
def parseVal : Nat → List Char → Option (JS × List Char)
  | 0, _ => none
  | _ + 1, [] => none
  | f + 1, c :: r =>
    if c = 'n' then (expectLit ['u', 'l', 'l'] r).map (fun r1 => (.null, r1))
    else if c = 't' then (expectLit ['r', 'u', 'e'] r).map (fun r1 => (.bool true, r1))
    else if c = 'f' then (expectLit ['a', 'l', 's', 'e'] r).map (fun r1 => (.bool false, r1))
    else if c = quoteC then
      (parseStrBody (r.length + 1) r).map (fun p => (.str (String.mk p.1), p.2))
    else if c = '[' then
      if r.head? = some ']' then some (.arr [], r.tail)
      else (parseElems f r).map (fun p => (.arr p.1, p.2))
    else if c = lbraceC then
      if r.head? = some rbraceC then some (.obj [], r.tail)
      else (parseFields f r).map (fun p => (.obj p.1, p.2))
    else if c = '-' then (parseDigitsNat r).map (fun p => (.num (-(p.1 : Int)), p.2))
    else if c.isDigit then (parseDigitsNat (c :: r)).map (fun p => (.num (p.1 : Int), p.2))
    else none

/-- Parse one or more comma-separated array elements and the closing
bracket. -/
def parseElems : Nat → List Char → Option (List JS × List Char)
  | 0, _ => none
  | f + 1, l =>
    (parseVal f l).bind (fun p =>
      if p.2.head? = some ',' then
        (parseElems f p.2.tail).map (fun q => (p.1 :: q.1, q.2))
      else if p.2.head? = some ']' then some ([p.1], p.2.tail)
      else none)

/-- Parse one or more comma-separated object members and the closing brace,
with Go's later-key-wins duplicate handling. -/
def parseFields : Nat → List Char → Option (JSMap × List Char)
  | 0, _ => none
  | f + 1, l =>
    if l.head? = some quoteC then
      (parseStrBody (l.tail.length + 1) l.tail).bind (fun pk =>
        if pk.2.head? = some ':' then
          (parseVal f pk.2.tail).bind (fun pv =>
            if pv.2.head? = some ',' then
              (parseFields f pv.2.tail).map
                (fun q => (insertField (String.mk pk.1) pv.1 q.1, q.2))
            else if pv.2.head? = some rbraceC then
              some ([(String.mk pk.1, pv.1)], pv.2.tail)
            else none)
        else none)
    else none
end

/-- Model of `mapToJSONString` (`plugins/openai`): `json.Marshal` of a
`map[string]any`; on JSON-representable values (the only ones the model
covers) it never fails, so the Go panic branch is unreachable here. -/
def mapToJSONString (m : JSMap) : String := String.mk (encVal (.obj m))

/-- Model of `jsonStringToMap` (`plugins/openai`): `json.Unmarshal` of a
string into `map[string]any`; Go panics on any unmarshal error, modelled by
`TransErr.crash`.  Top-level `null` leaves the map nil, which the
association-list model renders as `[]`. -/
def jsonStringToMap (s : String) : Except TransErr JSMap :=
  match parseVal (s.data.length + 1) s.data with
  | some (.obj fs, []) => .ok fs
  | some (.null, []) => .ok []
  | _ => .error (.crash ("unmarshal failed to parse json string " ++ s))

mutual
/-- A `JS` value that denotes a genuine JSON mapping tree: every object
inside it has pairwise-distinct keys (a Go `map` can hold nothing else). -/
def wfV : JS → Bool
  | .arr xs => wfE xs
  | .obj fs => wfF fs
  | _ => true

/-- `wfV` on every element of an array. -/
def wfE : List JS → Bool
  | [] => true
  | x :: t => wfV x && wfE t

/-- Distinct keys and well-formed values, along an object's field list. -/
def wfF : JSMap → Bool
  | [] => true
  | (k, v) :: t => (t.lookup k).isNone && wfV v && wfF t
end

mutual
/-- Structural size of a `JS` value, used as the fuel measure of the
decoder. -/
def sizeV : JS → Nat
  | .arr xs => 1 + sizeE xs
  | .obj fs => 1 + sizeF fs
  | _ => 1

/-- Size of an array's element list. -/
def sizeE : List JS → Nat
  | [] => 0
  | x :: t => 1 + sizeV x + sizeE t

/-- Size of an object's field list. -/
def sizeF : JSMap → Nat
  | [] => 0
  | (_, v) :: t => 1 + sizeV v + sizeF t
end

/-!
### The plugin model

Everything below is translated from the current revision of the plugin
source (`plugins/openai`): the `convertRequest` / `convertMessages` /
`convertTools` request translators, the `translateResponse` /
`translateCandidate` response translators, the role mappers, and the
`Init` / `DefineModel` registry.  Generic roles (`ai.Role`) and vendor
roles are Go string types, so both are modelled as `String`; Go float64
config fields are modelled as exact rationals, with the `float32(...)`
narrowing conversions modelled as the identity.
-/

/-- Model of `ai.Part`: a tagged union over the variants the plugin
discriminates with `IsText` / `IsMedia` / `IsData` / `IsToolRequest` /
`IsToolResponse`.  The `media` payload is the URL, which the Go struct
stores in its `Text` field. -/
inductive AiPart where
  | text (t : String)
  | media (url : String)
  | data (t : String)
  | toolRequest (name : String) (input : JSMap)
  | toolResponse (name : String) (output : JSMap)

/-- The `Text` field of the Go `ai.Part` struct: the payload for text,
media and data parts, and the zero value for the tool variants. -/
def AiPart.textField : AiPart → String
  | .text t => t
  | .media u => u
  | .data t => t
  | .toolRequest _ _ => ""
  | .toolResponse _ _ => ""

/-- Model of `ai.Message`: a role (a Go string type) plus content parts. -/
structure Message where
  role : String
  content : List AiPart

/-- Model of `ai.ToolDefinition`. -/
structure ToolDefinition where
  name : String := ""
  description : String := ""
  inputSchema : JSMap := []

/-- Model of `ai.GenerationCommonConfig` (numeric fields exact). -/
structure GenerationCommonConfig where
  maxOutputTokens : Int := 0
  stopSequences : List String := []
  temperature : ℚ := 0
  topK : Int := 0
  topP : ℚ := 0

/-- The dynamic `input.Config any` slot: the type assertion
`input.Config.(*ai.GenerationCommonConfig)` succeeds with a non-nil
pointer exactly in the `common` case; `other` covers nil and every other
dynamic type, which the plugin ignores. -/
inductive RequestConfig where
  | common (c : GenerationCommonConfig)
  | other

/-- Model of `ai.GenerateRequest.Output` (`*ai.GenerateRequestOutput`). -/
structure OutputConfig where
  format : String := ""
  schema : JSMap := []

/-- Model of `ai.GenerateRequest`. -/
structure GenerateRequest where
  messages : List Message := []
  tools : List ToolDefinition := []
  candidates : Int := 0
  config : RequestConfig := .other
  output : Option OutputConfig := none

/-- Model of `goopenai.ChatMessageImageURL` (URL plus detail level). -/
structure ChatMessageImageURL where
  url : String := ""
  detail : String := ""

/-- Model of `goopenai.ChatMessagePart`. -/
structure ChatMessagePart where
  type : String := ""
  text : String := ""
  imageURL : Option ChatMessageImageURL := none

/-- Model of `goopenai.FunctionCall`. -/
structure FunctionCall where
  name : String := ""
  arguments : String := ""

/-- Model of `goopenai.ToolCall`. -/
structure ToolCall where
  id : String := ""
  type : String := ""
  function : FunctionCall := {}

/-- Model of `goopenai.ChatCompletionMessage` (zero values as defaults). -/
structure ChatCompletionMessage where
  role : String := ""
  content : String := ""
  multiContent : List ChatMessagePart := []
  name : String := ""
  toolCalls : List ToolCall := []
  toolCallID : String := ""

/-- Model of `goopenai.FunctionDefinition`; `parameters` holds the
JSON-encoded input schema (`json.RawMessage`). -/
structure FunctionDefinition where
  name : String := ""
  description : String := ""
  parameters : String := ""

/-- Model of `goopenai.Tool`. -/
structure Tool where
  type : String := ""
  function : FunctionDefinition := {}

/-- Model of `goopenai.ChatCompletionResponseFormatJSONSchema`: the schema
is stored as the raw mapping (the Go code wraps it in a `MapJSONMarshaller`
that JSON-encodes it at wire time), plus the strict flag. -/
structure ResponseFormatJSONSchema where
  schema : JSMap := []
  strict : Bool := false

/-- Model of `goopenai.ChatCompletionResponseFormat`. -/
structure ResponseFormat where
  type : String := ""
  jsonSchema : Option ResponseFormatJSONSchema := none

/-- Model of `goopenai.ChatCompletionRequest`, restricted to the fields the
plugin writes; zero values as defaults, so an untouched field keeps the
vendor wire absence semantics. -/
structure ChatCompletionRequest where
  model : String := ""
  messages : List ChatCompletionMessage := []
  tools : List Tool := []
  n : Int := 0
  maxTokens : Int := 0
  stop : List String := []
  temperature : ℚ := 0
  topP : ℚ := 0
  responseFormat : Option ResponseFormat := none

/-- Model of `goopenai.ChatCompletionChoice`; the finish reason is a Go
string type. -/
structure ChatCompletionChoice where
  index : Int := 0
  message : ChatCompletionMessage := {}
  finishReason : String := ""

/-- Model of `goopenai.Usage`. -/
structure VendorUsage where
  promptTokens : Int := 0
  completionTokens : Int := 0
  totalTokens : Int := 0

/-- Model of `goopenai.ChatCompletionResponse`, restricted to the fields
the plugin reads. -/
structure ChatCompletionResponse where
  choices : List ChatCompletionChoice := []
  usage : VendorUsage := {}

/-- The hardcoded allow-list `modelsSupportingResponseFormats`. -/
def modelsSupportingResponseFormats : List String :=
  ["gpt-4o", "gpt-4o-mini", "gpt-4-turbo"]

/-- Model of `fromAIRoleToOpenAIRole`: generic role to vendor role; the
`default` branch is a Go `panic`. -/
def fromAIRoleToOpenAIRole (aiRole : String) : Except TransErr String :=
  if aiRole = "user" then .ok "user"
  else if aiRole = "system" then .ok "system"
  else if aiRole = "model" then .ok "assistant"
  else if aiRole = "tool" then .ok "tool"
  else .error (.crash ("Unknown ai.Role: " ++ aiRole))

/-- Model of `toOpenAIRole`: vendor role string back to the generic role;
the `default` branch is a Go `panic`. -/
def toOpenAIRole (role : String) : Except TransErr String :=
  if role = "user" then .ok "user"
  else if role = "assistant" then .ok "model"
  else if role = "system" then .ok "system"
  else if role = "tool" ∨ role = "function" then .ok "tool"
  else .error (.crash ("unknown role: " ++ role))

/-- Model of `toOpenAiTextAndMedia`: text and media parts become vendor
content parts (media at the default detail level); any other variant is
the translation error the source returns. -/
def toOpenAiTextAndMedia : AiPart → Except TransErr ChatMessagePart
  | .text t => .ok { type := "text", text := t }
  | .media u => .ok { type := "image_url", imageURL := some { url := u, detail := "auto" } }
  | _ => .error (.failure "unknown part type in a request")

/-- `m.Content[0].Text` as the source writes it: indexing panics on an
empty slice (modelled as a crash), otherwise reads the `Text` field. -/
def firstPartText : List AiPart → Except TransErr String
  | [] => .error (.crash "index out of range")
  | p :: _ => .ok p.textField

/-- The tool-call entry built for a `ToolRequest` part in an assistant
message (call id and function name both from the tool name, arguments
JSON-encoded); other variants are skipped by the `continue`. -/
def assistantToolCall : AiPart → Option ToolCall
  | .toolRequest name input =>
    some { id := name, type := "function",
           function := { name := name, arguments := mapToJSONString input } }
  | _ => none

/-- One vendor message per part of a Tool-role message.  The source
dereferences `part.ToolResponse` unconditionally, so any other variant is
a nil-pointer dereference (a Go runtime panic). -/
def toolRoleMessage : AiPart → Except TransErr ChatCompletionMessage
  | .toolResponse name output =>
    .ok { role := "tool", toolCallID := name,
          content := mapToJSONString output, name := name }
  | _ => .error (.crash "invalid memory address or nil pointer dereference")

/-- The vendor messages produced for one generic message, given its
already-mapped vendor role: the per-role cases of the `switch` inside
`convertMessages`. -/
def convertOneMessage (role : String) (m : Message) :
    Except TransErr (List ChatCompletionMessage) :=
  if role = "user" then
    (m.content.mapM toOpenAiTextAndMedia).map
      (fun mc => [{ role := role, multiContent := mc }])
  else if role = "system" then
    (firstPartText m.content).map (fun t => [{ role := role, content := t }])
  else if role = "assistant" then
    let toolCalls := m.content.filterMap assistantToolCall
    if toolCalls.length > 0 then .ok [{ role := role, toolCalls := toolCalls }]
    else (firstPartText m.content).map (fun t => [{ role := role, content := t }])
  else if role = "tool" then
    m.content.mapM toolRoleMessage
  else .error (.failure ("Unknown OpenAI Role " ++ role))

/-- Model of `convertMessages`: map each generic role to the vendor role
(which can panic), then emit that message's vendor messages in order. -/
def convertMessages : List Message → Except TransErr (List ChatCompletionMessage)
  | [] => .ok []
  | m :: rest =>
    (fromAIRoleToOpenAIRole m.role).bind (fun role =>
      (convertOneMessage role m).bind (fun these =>
        (convertMessages rest).map (fun others => these ++ others)))

/-- Model of `mapToJSONRawMessage`: `json.Marshal` of the schema mapping,
with the (unreachable on JSON-representable data) error branch kept in the
signature. -/
def mapToJSONRawMessage (m : JSMap) : Except TransErr String :=
  .ok (mapToJSONString m)

/-- Model of `convertTools`: one vendor function tool per definition, the
input schema JSON-encoded. -/
def convertTools (inTools : List ToolDefinition) : Except TransErr (List Tool) :=
  inTools.mapM (fun t =>
    (mapToJSONRawMessage t.inputSchema).map (fun params =>
      { type := "function",
        function := { name := t.name, description := t.description,
                      parameters := params } }))

/-- The four config-gating `if` statements of `convertRequest`: a zero
value leaves the corresponding vendor field at its zero default, a
non-zero value is copied (the `float32` casts are modelled as identity). -/
def applyCommonConfig (req : ChatCompletionRequest) :
    RequestConfig → ChatCompletionRequest
  | .common c =>
    { req with
      maxTokens := if c.maxOutputTokens ≠ 0 then c.maxOutputTokens else req.maxTokens,
      stop := if c.stopSequences.length > 0 then c.stopSequences else req.stop,
      temperature := if c.temperature ≠ 0 then c.temperature else req.temperature,
      topP := if c.topP ≠ 0 then c.topP else req.topP }
  | .other => req

/-- The output-format block of `convertRequest`: only when an output spec
is present, its format is nonempty and the model is allow-listed does the
`switch` run; JSON mode carries the schema with the strict flag, text mode
sets the plain text format, anything else is the hard error. -/
def applyOutputFormat (model : String) (output : Option OutputConfig)
    (req : ChatCompletionRequest) : Except TransErr ChatCompletionRequest :=
  match output with
  | some o =>
    if o.format ≠ "" ∧ model ∈ modelsSupportingResponseFormats then
      if o.format = "json" then
        let js : ResponseFormatJSONSchema := { schema := o.schema, strict := true }
        .ok { req with responseFormat := some { type := "json_object", jsonSchema := some js } }
      else if o.format = "text" then
        .ok { req with responseFormat := some { type := "text" } }
      else .error (.failure "unknown part type in a request")
    else .ok req
  | none => .ok req

/-- Model of `convertRequest`: messages, tools, candidate count, config
gating, then output-format handling. -/
def convertRequest (model : String) (input : GenerateRequest) :
    Except TransErr ChatCompletionRequest :=
  (convertMessages input.messages).bind (fun messages =>
    (convertTools input.tools).bind (fun tools =>
      applyOutputFormat model input.output
        (applyCommonConfig
          { model := model, messages := messages, tools := tools,
            n := input.candidates }
          input.config)))

/-- Generic finish reasons (`ai.FinishReason`). -/
inductive FinishReason where
  | stop
  | length
  | blocked
  | other
  | unknown
deriving DecidableEq

/-- The finish-reason `switch` of `translateCandidate`, as a function of
the vendor finish-reason string: `stop` and `tool_calls` map to Stop,
`length` to Length, `content_filter` to Blocked, `function_call` to Other,
`null` and everything else to Unknown. -/
def translateFinishReason (fr : String) : FinishReason :=
  if fr = "stop" ∨ fr = "tool_calls" then .stop
  else if fr = "length" then .length
  else if fr = "content_filter" then .blocked
  else if fr = "function_call" then .other
  else if fr = "null" then .unknown
  else .unknown

/-- Model of `ai.Candidate`. -/
structure Candidate where
  index : Int := 0
  finishReason : FinishReason := .unknown
  message : Message

/-- Model of `ai.GenerationUsage`. -/
structure GenerationUsage where
  inputTokens : Int := 0
  outputTokens : Int := 0
  totalTokens : Int := 0

/-- Model of `ai.GenerateResponse`, restricted to the fields the plugin
writes. -/
structure GenerateResponse where
  candidates : List Candidate := []
  usage : GenerationUsage := {}
  request : Option GenerateRequest := none

/-- One `ToolRequest` part per vendor tool call: name copied, arguments
JSON-decoded (`jsonStringToMap` panics on malformed JSON). -/
def toolCallToPart (tc : ToolCall) : Except TransErr AiPart :=
  (jsonStringToMap tc.function.arguments).map
    (fun m => .toolRequest tc.function.name m)

/-- Model of `translateCandidate`: finish reason via
`translateFinishReason`; tool calls, when present, become the whole
content (any text is dropped); otherwise a single Data part (JSON mode) or
Text part carrying the raw content. -/
def translateCandidate (choice : ChatCompletionChoice) (jsonMode : Bool) :
    Except TransErr Candidate :=
  (choice.message.toolCalls.mapM toolCallToPart).map (fun toolRequestParts =>
    { index := choice.index,
      finishReason := translateFinishReason choice.finishReason,
      message :=
        { role := "model",
          content :=
            if toolRequestParts.length > 0 then toolRequestParts
            else [if jsonMode then AiPart.data choice.message.content
                  else AiPart.text choice.message.content] } })

/-- Model of `translateResponse`: one candidate per choice in order, usage
copied field by field. -/
def translateResponse (resp : ChatCompletionResponse) (jsonMode : Bool) :
    Except TransErr GenerateResponse :=
  (resp.choices.mapM (fun c => translateCandidate c jsonMode)).map
    (fun cands =>
      { candidates := cands,
        usage := { inputTokens := resp.usage.promptTokens,
                   outputTokens := resp.usage.completionTokens,
                   totalTokens := resp.usage.totalTokens } })

/-- Model of `ai.GenerateResponseChunk`, the streaming-callback payload. -/
structure GenerateResponseChunk where
  content : List AiPart := []

/-- Errors `generate` can surface: translation errors/panics, or the
vendor call's own error passed through unchanged. -/
inductive GenError (ε : Type) where
  | trans (e : TransErr)
  | vendor (e : ε)

/-- Whether the request asked for JSON output, as computed inside
`generate`. -/
def requestJsonMode : Option OutputConfig → Bool
  | some o => o.format == "json"
  | none => false

/-- Model of `generate`, abstracting the vendor transport as the function
`chat`.  The second component of the result records every chunk the
streaming callback `cb` would have been invoked with; the source never
invokes `cb` (the parameter is declared and ignored), so the body never
appends to the record. -/
def generate {ε : Type} (chat : ChatCompletionRequest → Except ε ChatCompletionResponse)
    (model : String) (input : GenerateRequest) :
    Except (GenError ε) GenerateResponse × List GenerateResponseChunk :=
  match convertRequest model input with
  | .error e => (.error (.trans e), [])
  | .ok req =>
    match chat req with
    | .error e => (.error (.vendor e), [])
    | .ok resp =>
      match translateResponse resp (requestJsonMode input.output) with
      | .error e => (.error (.trans e), [])
      | .ok r => (.ok { r with request := some input }, [])

/-- Model of `ai.ModelCapabilities`. -/
structure ModelCapabilities where
  multiturn : Bool := false
  tools : Bool := false
  systemRole : Bool := false
  media : Bool := false
deriving DecidableEq

/-- The `Multimodal` capability constant used by `knownCaps` (values from
the capability table spelled out in the earlier plugin revision). -/
def Multimodal : ModelCapabilities :=
  { multiturn := true, tools := true, systemRole := true, media := true }

/-- The `BasicText` capability constant used by `knownCaps` (media off). -/
def BasicText : ModelCapabilities :=
  { multiturn := true, tools := true, systemRole := true, media := false }

/-- The known-capability table `knownCaps`. -/
def knownCaps : List (String × ModelCapabilities) :=
  [("gpt-4o", Multimodal), ("gpt-4o-mini", Multimodal),
   ("gpt-4-turbo", Multimodal), ("gpt-4", BasicText)]

/-- Model of `ai.ModelMetadata` as built by `defineModel`. -/
structure ModelMetadata where
  label : String := ""
  supports : ModelCapabilities := {}
deriving DecidableEq

/-- The plugin's package-level `state` plus the host registry the
generation closures are registered into: `initted`, and the models
registered so far (the shared client handle carries no further observable
state at this level). -/
structure PluginState where
  initted : Bool := false
  registry : List (String × ModelMetadata) := []
deriving DecidableEq

/-- Model of the lower-case `defineModel`: build the metadata and register
the model with the host. -/
def defineModelAux (st : PluginState) (name : String) (caps : ModelCapabilities) :
    PluginState × ModelMetadata :=
  let meta : ModelMetadata := { label := "OpenAI - " ++ name, supports := caps }
  ({ st with registry := (name, meta) :: st.registry }, meta)

/-- Model of the exported `DefineModel` (state-passing): panics when `Init`
has not run; with capabilities omitted they are looked up in `knownCaps`,
failing without registering anything when the model is unknown; with
capabilities supplied the model is registered unconditionally. -/
def DefineModel (st : PluginState) (name : String)
    (caps : Option ModelCapabilities) : PluginState × Except TransErr ModelMetadata :=
  if st.initted = false then (st, .error (.crash "openai.Init not called"))
  else
    match caps with
    | none =>
      match knownCaps.lookup name with
      | some mc =>
        let p := defineModelAux st name mc
        (p.1, .ok p.2)
      | none =>
        (st, .error (.failure ("openai.DefineModel: called with unknown model \"" ++
          name ++ "\" and nil ModelCapabilities")))
    | some c =>
      let p := defineModelAux st name c
      (p.1, .ok p.2)

/-- Model of `openai.Config`. -/
structure Config where
  apiKey : String := ""

/-- The credential `Init` resolves: the config value, falling back to the
environment variable. -/
def initKey (cfg : Option Config) (env : String) : String :=
  if (cfg.getD {}).apiKey = "" then env else (cfg.getD {}).apiKey

/-- Model of `Init` (state-passing; `env` is the value of the
`OPENAI_API_KEY` environment variable, empty when unset): panics on a
second call, errors without a credential, otherwise marks the plugin
initialized and registers every known model. -/
def Init (st : PluginState) (cfg : Option Config) (env : String) :
    PluginState × Except TransErr Unit :=
  if st.initted then (st, .error (.crash "openai.Init not called"))
  else if initKey cfg env = "" then
    (st, .error (.failure ("openai.Init: OpenAI requires setting OPENAI_API_KEY in the environment. You can get an API key at https://platform.openai.com/api-keys")))
  else
    ({ initted := true,
       registry :=
         (knownCaps.map (fun p =>
           (p.1, { label := "OpenAI - " ++ p.1, supports := p.2 }))) ++ st.registry },
     .ok ())

/-! ### Decimal digit lemmas -/

/-- Whether a character list is empty or starts with a non-digit; rendered
JSON never continues a number across such a boundary. -/
def headNotDigit : List Char → Bool
  | [] => true
  | c :: _ => !c.isDigit

theorem digitChar_toNat {d : Nat} (h : d < 10) : (digitChar d).toNat = 48 + d := by
  interval_cases d <;> decide

theorem digitChar_isDigit {d : Nat} (h : d < 10) : (digitChar d).isDigit = true := by
  interval_cases d <;> decide

theorem encNat_all_digits (n : Nat) : ∀ c ∈ encNat n, c.isDigit = true := by
  intro c hc
  unfold encNat at hc
  split at hc
  · simp at hc
    subst hc
    decide
  · simp only [List.mem_map, List.mem_reverse] at hc
    obtain ⟨d, hd, rfl⟩ := hc
    exact digitChar_isDigit (Nat.digits_lt_base (by norm_num) hd)

theorem encNat_ne_nil (n : Nat) : encNat n ≠ [] := by
  unfold encNat
  split
  · simp
  · rename_i h
    simp [Nat.digits_ne_nil_iff_ne_zero, h]

theorem encNat_head (n : Nat) : ∃ c t, encNat n = c :: t ∧ c.isDigit = true := by
  match h : encNat n with
  | [] => exact absurd h (encNat_ne_nil n)
  | c :: t =>
    refine ⟨c, t, rfl, ?_⟩
    exact encNat_all_digits n c (h ▸ List.mem_cons_self c t)

theorem foldl_ten_reverse (L : List Nat) (a : Nat) :
    L.reverse.foldl (fun acc d => 10 * acc + d) a =
      a * 10 ^ L.length + Nat.ofDigits 10 L := by
  induction L generalizing a with
  | nil => simp
  | cons d t ih =>
    simp only [List.reverse_cons, List.foldl_append, List.foldl_cons, List.foldl_nil,
      List.length_cons, Nat.ofDigits_cons, ih]
    ring

theorem digitsToNat_encNat (n : Nat) : digitsToNat (encNat n) = n := by
  by_cases h : n = 0
  · subst h
    decide
  · unfold encNat digitsToNat
    rw [if_neg h, List.foldl_map]
    have hcong :
        ((Nat.digits 10 n).reverse.foldl
            (fun acc d => 10 * acc + ((digitChar d).toNat - 48)) 0) =
          ((Nat.digits 10 n).reverse.foldl (fun acc d => 10 * acc + d) 0) := by
      apply List.foldl_ext
      intro acc d hd
      rw [digitChar_toNat (Nat.digits_lt_base (by norm_num) (List.mem_reverse.mp hd))]
      omega
    rw [hcong, foldl_ten_reverse, Nat.ofDigits_digits]
    omega

theorem takeDigits_stop {l : List Char} (h : headNotDigit l = true) :
    takeDigits l = ([], l) := by
  cases l with
  | nil => rfl
  | cons c r =>
    simp only [headNotDigit, Bool.not_eq_eq_eq_not, Bool.not_true] at h
    simp [takeDigits, h]

theorem takeDigits_run {ds rest : List Char} (hds : ∀ c ∈ ds, c.isDigit = true)
    (hrest : headNotDigit rest = true) : takeDigits (ds ++ rest) = (ds, rest) := by
  induction ds with
  | cons c t ih =>
    have hc : c.isDigit = true := hds c (List.mem_cons_self c t)
    have ht := ih (fun x hx => hds x (List.mem_cons_of_mem c hx))
    simp [takeDigits, hc, ht]
  | nil =>
    rw [List.nil_append]
    exact takeDigits_stop hrest

theorem parseDigitsNat_encNat (n : Nat) (rest : List Char)
    (hrest : headNotDigit rest = true) :
    parseDigitsNat (encNat n ++ rest) = some (n, rest) := by
  unfold parseDigitsNat
  rw [takeDigits_run (encNat_all_digits n) hrest]
  obtain ⟨c, t, hct, -⟩ := encNat_head n
  rw [hct]
  simp only []
  rw [← hct, digitsToNat_encNat]

/-! ### String body round trip -/

theorem fromHexDigit_hexDigit {h : Nat} (hlt : h < 16) :
    fromHexDigit (hexDigit h) = some h := by
  interval_cases h <;> decide

theorem parseStrBody_back (f : Nat) (r : List Char) :
    parseStrBody (f + 1) (backC :: r) =
      (decodeEscape r).bind (fun p =>
        (parseStrBody f p.2).map (fun q => (p.1 :: q.1, q.2))) := rfl

theorem parseStrBody_encChar (c : Char) (f : Nat) (l : List Char) :
    parseStrBody (f + 1) (encChar c ++ l) =
      (parseStrBody f l).map (fun p => (c :: p.1, p.2)) := by
  unfold encChar
  split_ifs with hq hb hn hr ht hcond
  · subst hq
    rfl
  · subst hb
    rfl
  · have : c = Char.ofNat 10 := by rw [<- hn, Char.ofNat_toNat]
    subst this
    rfl
  · have : c = Char.ofNat 13 := by rw [<- hr, Char.ofNat_toNat]
    subst this
    rfl
  · have : c = Char.ofNat 9 := by rw [<- ht, Char.ofNat_toNat]
    subst this
    rfl
  · have hlt : c.toNat < 65536 := by
      rcases hcond with h | h | h | h | h | h
      · omega
      · subst h; decide
      · subst h; decide
      · subst h; decide
      · omega
      · omega
    have h16 : forall k : Nat, k % 16 < 16 := fun k => Nat.mod_lt _ (by omega)
    have hrecomb :
        (((c.toNat / 4096 % 16 * 16 + c.toNat / 256 % 16) * 16 + c.toNat / 16 % 16) * 16 +
            c.toNat % 16) = c.toNat := by
      omega
    show parseStrBody (f + 1)
        (backC :: 'u' :: hexDigit (c.toNat / 4096 % 16) :: hexDigit (c.toNat / 256 % 16) ::
          hexDigit (c.toNat / 16 % 16) :: hexDigit (c.toNat % 16) :: l) = _
    rw [parseStrBody_back]
    show ((parseUHex (hexDigit (c.toNat / 4096 % 16) :: hexDigit (c.toNat / 256 % 16) ::
        hexDigit (c.toNat / 16 % 16) :: hexDigit (c.toNat % 16) :: l)).bind _) = _
    simp [parseUHex, fromHexDigit_hexDigit (h16 _), hrecomb, Char.ofNat_toNat]
  · show parseStrBody (f + 1) (c :: l) = _
    simp only [parseStrBody, if_neg hq, if_neg hb]

theorem parseStrBody_enc (s : List Char) :
    forall (f : Nat) (rest : List Char), s.length < f ->
      parseStrBody f (encChars s ++ quoteC :: rest) = some (s, rest) := by
  induction s with
  | nil =>
    intro f rest hf
    cases f with
    | zero => exact absurd hf (Nat.not_lt_zero _)
    | succ g => simp [encChars, parseStrBody]
  | cons c t ih =>
    intro f rest hf
    cases f with
    | zero => exact absurd hf (Nat.not_lt_zero _)
    | succ g =>
      have hg : t.length < g := by
        simp only [List.length_cons] at hf
        omega
      simp only [encChars, List.append_assoc]
      rw [parseStrBody_encChar, ih g rest hg]
      rfl

/-! ### Dispatch and head-character lemmas for the value parser -/

theorem digit_ne_marks {c : Char} (h : c.isDigit = true) :
    c ≠ 'n' ∧ c ≠ 't' ∧ c ≠ 'f' ∧ c ≠ quoteC ∧ c ≠ '[' ∧ c ≠ lbraceC ∧
      c ≠ '-' ∧ c ≠ ']' ∧ c ≠ rbraceC := by
  and_intros <;> (rintro rfl; exact absurd h (by decide))

theorem parseVal_quoteHead (f : Nat) (r : List Char) :
    parseVal (f + 1) (quoteC :: r) =
      (parseStrBody (r.length + 1) r).map
        (fun p => (.str (String.mk p.1), p.2)) := rfl

theorem parseVal_lbrackHead (f : Nat) (r : List Char) :
    parseVal (f + 1) ('[' :: r) =
      if r.head? = some ']' then some (.arr [], r.tail)
      else (parseElems f r).map (fun p => (.arr p.1, p.2)) := rfl

theorem parseVal_lbraceHead (f : Nat) (r : List Char) :
    parseVal (f + 1) (lbraceC :: r) =
      if r.head? = some rbraceC then some (.obj [], r.tail)
      else (parseFields f r).map (fun p => (.obj p.1, p.2)) := rfl

theorem parseVal_negHead (f : Nat) (r : List Char) :
    parseVal (f + 1) ('-' :: r) =
      (parseDigitsNat r).map (fun p => (.num (-(p.1 : Int)), p.2)) := rfl

theorem parseVal_digitHead (f : Nat) {c : Char} (r : List Char) (hc : c.isDigit = true) :
    parseVal (f + 1) (c :: r) =
      (parseDigitsNat (c :: r)).map (fun p => (.num (p.1 : Int), p.2)) := by
  obtain ⟨h1, h2, h3, h4, h5, h6, h7, -, -⟩ := digit_ne_marks hc
  simp [parseVal, h1, h2, h3, h4, h5, h6, h7, hc]

theorem encElems_consShape (x : JS) (t : List JS) :
    ∃ s, encElems (x :: t) = encVal x ++ s := by
  cases t with
  | nil => exact ⟨[], by simp [encElems]⟩
  | cons y t2 => exact ⟨',' :: encElems (y :: t2), by simp [encElems]⟩

theorem encFields_headShape (k : String) (v : JS) (t : JSMap) :
    ∃ s, encFields ((k, v) :: t) = quoteC :: s := by
  cases t with
  | nil => exact ⟨encChars k.data ++ [quoteC] ++ ':' :: encVal v, by simp [encFields, encStrL]⟩
  | cons p t2 =>
    exact ⟨encChars k.data ++ [quoteC] ++ ':' :: (encVal v ++ ',' :: encFields (p :: t2)),
      by simp [encFields, encStrL]⟩

theorem encVal_head (v : JS) :
    ∃ c t, encVal v = c :: t ∧ c ≠ ']' ∧ c ≠ rbraceC := by
  cases v with
  | null => exact ⟨'n', "ull".data, by simp [encVal], by decide, by decide⟩
  | bool b =>
    cases b with
    | false => exact ⟨'f', "alse".data, by simp [encVal], by decide, by decide⟩
    | true => exact ⟨'t', "rue".data, by simp [encVal], by decide, by decide⟩
  | num i =>
    by_cases hi : i < 0
    · exact ⟨'-', encNat i.natAbs, by simp [encVal, encInt, hi], by decide, by decide⟩
    · obtain ⟨c, t, hct, hc⟩ := encNat_head i.natAbs
      obtain ⟨-, -, -, -, -, -, -, h8, h9⟩ := digit_ne_marks hc
      exact ⟨c, t, by simp [encVal, encInt, hi, hct], h8, h9⟩
  | str s =>
    exact ⟨quoteC, encChars s.data ++ [quoteC], by simp [encVal, encStrL], by decide, by decide⟩
  | arr xs => exact ⟨'[', encElems xs ++ [']'], by simp [encVal], by decide, by decide⟩
  | obj fs => exact ⟨lbraceC, encFields fs ++ [rbraceC], by simp [encVal], by decide, by decide⟩

/-! ### A member-wise induction principle for `JS` and size bounds -/

theorem JS.myInd {P : JS → Prop} (hnull : P .null) (hbool : ∀ b, P (.bool b))
    (hnum : ∀ i, P (.num i)) (hstr : ∀ s, P (.str s))
    (harr : ∀ xs, (∀ x ∈ xs, P x) → P (.arr xs))
    (hobj : ∀ fs, (∀ p ∈ fs, P p.2) → P (.obj fs)) : ∀ v, P v := by
  have key : ∀ n, ∀ v : JS, sizeOf v ≤ n → P v := by
    intro n
    induction n with
    | zero =>
      intro v hv
      cases v <;> simp at hv
    | succ n ih =>
      intro v hv
      cases v with
      | null => exact hnull
      | bool b => exact hbool b
      | num i => exact hnum i
      | str s => exact hstr s
      | arr xs =>
        refine harr xs (fun x hx => ih x ?_)
        have h1 := List.sizeOf_lt_of_mem hx
        simp only [JS.arr.sizeOf_spec] at hv
        omega
      | obj fs =>
        refine hobj fs (fun p hp => ih p.2 ?_)
        have h1 := List.sizeOf_lt_of_mem hp
        have h2 : sizeOf p.2 < sizeOf p := by
          obtain ⟨a, b⟩ := p
          simp
        simp only [JS.obj.sizeOf_spec] at hv
        omega
  exact fun v => key (sizeOf v) v le_rfl

theorem sizeV_pos (v : JS) : 1 ≤ sizeV v := by
  cases v <;> simp [sizeV]

theorem encChar_len_pos (c : Char) : 1 ≤ (encChar c).length := by
  unfold encChar
  split_ifs <;> simp

theorem len_le_encChars (s : List Char) : s.length ≤ (encChars s).length := by
  induction s with
  | nil => simp [encChars]
  | cons c t ih =>
    have := encChar_len_pos c
    simp only [encChars, List.length_append, List.length_cons]
    omega

theorem encInt_len_pos (i : Int) : 1 ≤ (encInt i).length := by
  unfold encInt
  split_ifs
  · simp
  · have := encNat_ne_nil i.natAbs
    exact List.length_pos.mpr this

theorem sizeE_le_len (xs : List JS) (h : ∀ x ∈ xs, sizeV x ≤ (encVal x).length) :
    sizeE xs ≤ (encElems xs).length + 1 := by
  induction xs with
  | nil => simp [sizeE, encElems]
  | cons x t ih =>
    have hx := h x (List.mem_cons_self x t)
    cases t with
    | nil =>
      simp only [sizeE, encElems]
      omega
    | cons y t2 =>
      have ht := ih (fun z hz => h z (List.mem_cons_of_mem x hz))
      simp only [sizeE, encElems, List.length_append, List.length_cons] at *
      omega

theorem sizeF_le_len (fs : JSMap) (h : ∀ p ∈ fs, sizeV p.2 ≤ (encVal p.2).length) :
    sizeF fs ≤ (encFields fs).length + 1 := by
  induction fs with
  | nil => simp [sizeF, encFields]
  | cons kv t ih =>
    obtain ⟨k, v⟩ := kv
    have hv := h (k, v) (List.mem_cons_self (k, v) t)
    cases t with
    | nil =>
      simp only [sizeF, encFields, encStrL, List.length_append, List.length_cons] at *
      omega
    | cons p t2 =>
      have ht := ih (fun z hz => h z (List.mem_cons_of_mem (k, v) hz))
      simp only [sizeF, encFields, encStrL, List.length_append, List.length_cons] at *
      omega

theorem sizeV_le_len : ∀ v : JS, sizeV v ≤ (encVal v).length := by
  apply JS.myInd
  · simp [sizeV, encVal]
  · intro b
    cases b <;> simp [sizeV, encVal]
  · intro i
    have := encInt_len_pos i
    simp [sizeV, encVal]
    omega
  · intro s
    simp [sizeV, encVal, encStrL]
  · intro xs h
    have := sizeE_le_len xs h
    simp only [sizeV, encVal, List.length_cons, List.length_append, List.length_singleton]
    omega
  · intro fs h
    have := sizeF_le_len fs h
    simp only [sizeV, encVal, List.length_cons, List.length_append, List.length_singleton]
    omega

/-- One full member step of `parseFields` on a stream that starts with an
encoded key, the colon, and a remainder: the key parses back and the
continuation runs on the remainder. -/
theorem parseFields_step (f : Nat) (kd : List Char) (X : List Char) :
    parseFields (f + 1) (quoteC :: (encChars kd ++ quoteC :: ':' :: X)) =
      (parseVal f X).bind (fun pv =>
        if pv.2.head? = some ',' then
          (parseFields f pv.2.tail).map
            (fun q => (insertField (String.mk kd) pv.1 q.1, q.2))
        else if pv.2.head? = some rbraceC then
          some ([(String.mk kd, pv.1)], pv.2.tail)
        else none) := by
  simp only [parseFields, List.head?_cons, List.tail_cons, if_true]
  rw [parseStrBody_enc kd _ (':' :: X) (by
    have := len_le_encChars kd
    simp only [List.length_append, List.length_cons]
    omega)]
  simp

/-! ### The decode-after-encode induction -/

theorem parse_encVal :
    ∀ f : Nat,
      (∀ v rest, wfV v = true → sizeV v ≤ f → headNotDigit rest = true →
        parseVal f (encVal v ++ rest) = some (v, rest)) ∧
      (∀ xs rest, xs ≠ [] → wfE xs = true → sizeE xs ≤ f →
        parseElems f (encElems xs ++ ']' :: rest) = some (xs, rest)) ∧
      (∀ fs rest, fs ≠ [] → wfF fs = true → sizeF fs ≤ f →
        parseFields f (encFields fs ++ rbraceC :: rest) = some (fs, rest)) := by
  intro f
  induction f with
  | zero =>
    refine ⟨?_, ?_, ?_⟩
    · intro v rest _ hsz _
      have := sizeV_pos v
      omega
    · intro xs rest hne _ hsz
      cases xs with
      | nil => exact absurd rfl hne
      | cons x t =>
        have := sizeV_pos x
        simp only [sizeE] at hsz
        omega
    · intro fs rest hne _ hsz
      cases fs with
      | nil => exact absurd rfl hne
      | cons kv t =>
        obtain ⟨k, v⟩ := kv
        have := sizeV_pos v
        simp only [sizeF] at hsz
        omega
  | succ f ih =>
    obtain ⟨ihV, ihE, ihF⟩ := ih
    refine ⟨?_, ?_, ?_⟩
    · intro v rest hwf hsz hnd
      cases v with
      | null =>
        rw [show encVal JS.null = "null".data from by simp [encVal]]
        rfl
      | bool b =>
        cases b with
        | false =>
          rw [show encVal (JS.bool false) = "false".data from by simp [encVal]]
          rfl
        | true =>
          rw [show encVal (JS.bool true) = "true".data from by simp [encVal]]
          rfl
      | num i =>
        by_cases hi : i < 0
        · rw [show encVal (JS.num i) = '-' :: encNat i.natAbs from by simp [encVal, encInt, hi],
            List.cons_append, parseVal_negHead, parseDigitsNat_encNat _ _ hnd]
          have hv : ((i.natAbs : Int)) = -i := by omega
          simp [hv]
        · obtain ⟨c, t, hct, hcd⟩ := encNat_head i.natAbs
          rw [show encVal (JS.num i) = encNat i.natAbs from by simp [encVal, encInt, hi],
            hct, List.cons_append, parseVal_digitHead f _ hcd, ← List.cons_append, ← hct,
            parseDigitsNat_encNat _ _ hnd]
          have hv : ((i.natAbs : Int)) = i := by omega
          simp [hv]
      | str s =>
        rw [show encVal (JS.str s) = quoteC :: (encChars s.data ++ [quoteC]) from
            by simp [encVal, encStrL],
          List.cons_append, parseVal_quoteHead,
          show (encChars s.data ++ [quoteC]) ++ rest = encChars s.data ++ quoteC :: rest from
            by simp]
        rw [parseStrBody_enc s.data _ rest (by
          have h1 := len_le_encChars s.data
          simp only [List.length_append, List.length_cons]
          omega)]
        rfl
      | arr xs =>
        cases xs with
        | nil =>
          rw [show encVal (JS.arr []) = ['[', ']'] from by simp [encVal, encElems]]
          rfl
        | cons x t =>
          rw [show encVal (JS.arr (x :: t)) = '[' :: (encElems (x :: t) ++ [']']) from
              by simp [encVal],
            List.cons_append, parseVal_lbrackHead,
            show (encElems (x :: t) ++ [']']) ++ rest = encElems (x :: t) ++ ']' :: rest from
              by simp]
          obtain ⟨s, hs⟩ := encElems_consShape x t
          obtain ⟨c, ct, hct, hc1, hc2⟩ := encVal_head x
          have hhead : (encElems (x :: t) ++ ']' :: rest).head? = some c := by
            rw [hs, hct]
            simp
          rw [if_neg (by simp [hhead, hc1])]
          rw [ihE (x :: t) rest (by simp)
            (by simpa [wfV] using hwf)
            (by simp only [sizeV] at hsz; omega)]
          rfl
      | obj fs =>
        cases fs with
        | nil =>
          rw [show encVal (JS.obj []) = [lbraceC, rbraceC] from by simp [encVal, encFields]]
          rfl
        | cons kv t =>
          obtain ⟨k, v⟩ := kv
          rw [show encVal (JS.obj ((k, v) :: t)) =
                lbraceC :: (encFields ((k, v) :: t) ++ [rbraceC]) from by simp [encVal],
            List.cons_append, parseVal_lbraceHead,
            show (encFields ((k, v) :: t) ++ [rbraceC]) ++ rest =
                encFields ((k, v) :: t) ++ rbraceC :: rest from by simp]
          obtain ⟨s, hs⟩ := encFields_headShape k v t
          have hhead : (encFields ((k, v) :: t) ++ rbraceC :: rest).head? = some quoteC := by
            rw [hs]
            simp
          rw [if_neg (by simp [hhead]; decide)]
          rw [ihF ((k, v) :: t) rest (by simp)
            (by simpa [wfV] using hwf)
            (by simp only [sizeV] at hsz; omega)]
          rfl
    · intro xs rest hne hwf hsz
      cases xs with
      | nil => exact absurd rfl hne
      | cons x t =>
        have hwx : wfV x = true := by
          simp only [wfE, Bool.and_eq_true] at hwf
          exact hwf.1
        cases t with
        | nil =>
          rw [show encElems [x] = encVal x from by simp [encElems]]
          have h1 : parseVal f (encVal x ++ ']' :: rest) = some (x, ']' :: rest) :=
            ihV x (']' :: rest) hwx
              (by simp only [sizeE] at hsz; omega) (by rfl)
          simp [parseElems, h1]
        | cons y t2 =>
          rw [show encElems (x :: y :: t2) ++ ']' :: rest =
              encVal x ++ ',' :: (encElems (y :: t2) ++ ']' :: rest) from
            by simp [encElems]]
          have h1 : parseVal f (encVal x ++ ',' :: (encElems (y :: t2) ++ ']' :: rest)) =
              some (x, ',' :: (encElems (y :: t2) ++ ']' :: rest)) :=
            ihV x _ hwx (by simp only [sizeE] at hsz; omega) (by rfl)
          have h2 : parseElems f (encElems (y :: t2) ++ ']' :: rest) = some (y :: t2, rest) :=
            ihE (y :: t2) rest (by simp)
              (by simp only [wfE, Bool.and_eq_true] at hwf ⊢; exact hwf.2)
              (by simp only [sizeE] at hsz ⊢; omega)
          simp [parseElems, h1, h2]
    · intro fs rest hne hwf hsz
      cases fs with
      | nil => exact absurd rfl hne
      | cons kv t =>
        obtain ⟨k, v⟩ := kv
        have hwv : wfV v = true := by
          simp only [wfF, Bool.and_eq_true] at hwf
          exact hwf.1.2
        have hlk : (t.lookup k).isNone = true := by
          simp only [wfF, Bool.and_eq_true] at hwf
          exact hwf.1.1
        have hkmk : String.mk k.data = k := rfl
        cases t with
        | nil =>
          rw [show encFields [(k, v)] ++ rbraceC :: rest =
              quoteC :: (encChars k.data ++ quoteC :: ':' :: (encVal v ++ rbraceC :: rest)) from
            by simp [encFields, encStrL]]
          have h1 : parseVal f (encVal v ++ rbraceC :: rest) = some (v, rbraceC :: rest) :=
            ihV v _ hwv (by simp only [sizeF] at hsz; omega) (by rfl)
          rw [parseFields_step, h1]
          have hne1 : ¬(rbraceC = ',') := by decide
          simp [hne1, hkmk]
        | cons p t2 =>
          rw [show encFields ((k, v) :: p :: t2) ++ rbraceC :: rest =
              quoteC :: (encChars k.data ++ quoteC :: ':' ::
                (encVal v ++ ',' :: (encFields (p :: t2) ++ rbraceC :: rest))) from
            by simp [encFields, encStrL]]
          have h1 : parseVal f (encVal v ++ ',' :: (encFields (p :: t2) ++ rbraceC :: rest)) =
              some (v, ',' :: (encFields (p :: t2) ++ rbraceC :: rest)) :=
            ihV v _ hwv (by simp only [sizeF] at hsz; omega) (by rfl)
          have h2 : parseFields f (encFields (p :: t2) ++ rbraceC :: rest) =
              some (p :: t2, rest) :=
            ihF (p :: t2) rest (by simp)
              (by simp only [wfF, Bool.and_eq_true] at hwf ⊢
                  exact hwf.2)
              (by simp only [sizeF] at hsz ⊢; omega)
          have hins : insertField k v (p :: t2) = (k, v) :: p :: t2 := by
            unfold insertField
            rw [if_neg (by simp only [Option.isNone_iff_eq_none] at hlk; simp [hlk])]
          rw [parseFields_step, h1]
          simp [h2, hkmk, hins]

/-- Round trip of the JSON helpers: decoding an encoded mapping recovers
it, for every mapping whose objects have pairwise-distinct keys. -/
theorem jsonStringToMap_mapToJSONString (m : JSMap) (h : wfF m = true) :
    jsonStringToMap (mapToJSONString m) = .ok m := by
  have key := (parse_encVal ((encVal (.obj m)).length + 1)).1 (.obj m) []
    (by simp [wfV, h])
    (by have := sizeV_le_len (.obj m); omega)
    (by rfl)
  rw [List.append_nil] at key
  unfold jsonStringToMap mapToJSONString
  have hdata : (String.mk (encVal (.obj m))).data = encVal (.obj m) := rfl
  rw [hdata, key]

/-! ### Plumbing lemmas for the request/response translators -/

theorem exceptBind_ok {ε α β : Type} {f : α → Except ε β} (a : α) :
    Except.bind (.ok a) f = f a := rfl

theorem exceptBind_error {ε α β : Type} {f : α → Except ε β} (e : ε) :
    Except.bind (α := α) (.error e) f = .error e := rfl

theorem exceptMap_ok {ε α β : Type} {f : α → β} (a : α) :
    Except.map (ε := ε) f (.ok a) = .ok (f a) := rfl

theorem exceptMap_error {ε α β : Type} {f : α → β} (e : ε) :
    Except.map (α := α) (β := β) f (.error e) = .error e := rfl

theorem convertTools_never_errors (ts : List ToolDefinition) :
    ∃ out, convertTools ts = .ok out := by
  induction ts with
  | nil => exact ⟨[], rfl⟩
  | cons t rest ih =>
    obtain ⟨out, hout⟩ := ih
    unfold convertTools at hout ⊢
    refine ⟨{ type := "function",
              function := { name := t.name, description := t.description,
                            parameters := mapToJSONString t.inputSchema } } :: out, ?_⟩
    rw [List.mapM_cons, hout]
    rfl

theorem applyCommonConfig_responseFormat (req : ChatCompletionRequest)
    (cfg : RequestConfig) :
    (applyCommonConfig req cfg).responseFormat = req.responseFormat := by
  cases cfg <;> rfl

theorem applyOutputFormat_preserves (model : String) (o : Option OutputConfig)
    (req r : ChatCompletionRequest) (h : applyOutputFormat model o req = .ok r) :
    r.maxTokens = req.maxTokens ∧ r.stop = req.stop ∧
      r.temperature = req.temperature ∧ r.topP = req.topP := by
  cases o with
  | none =>
    simp only [applyOutputFormat, Except.ok.injEq] at h
    subst h
    exact ⟨rfl, rfl, rfl, rfl⟩
  | some oc =>
    simp only [applyOutputFormat] at h
    split_ifs at h <;>
      (simp only [Except.ok.injEq] at h
       subst h
       exact ⟨rfl, rfl, rfl, rfl⟩)

/-! ### Claim theorems -/

/-- Claim C2: the finish-reason translation in `translateCandidate` is
total and never fails: `stop` and `tool_calls` map to Stop, `length` to
Length, `content_filter` to Blocked, `function_call` to Other, `null` and
every unrecognized value to Unknown; and every successfully translated
candidate carries exactly this translation of its choice's finish
reason. -/
theorem claimC2_finishReason_total :
    translateFinishReason "stop" = .stop ∧
    translateFinishReason "tool_calls" = .stop ∧
    translateFinishReason "length" = .length ∧
    translateFinishReason "content_filter" = .blocked ∧
    translateFinishReason "function_call" = .other ∧
    translateFinishReason "null" = .unknown ∧
    (∀ fr : String,
      fr ∉ ["stop", "tool_calls", "length", "content_filter", "function_call"] →
      translateFinishReason fr = .unknown) ∧
    (∀ (choice : ChatCompletionChoice) (jsonMode : Bool) (c : Candidate),
      translateCandidate choice jsonMode = .ok c →
      c.finishReason = translateFinishReason choice.finishReason) := by
  refine ⟨rfl, rfl, rfl, rfl, rfl, rfl, ?_, ?_⟩
  · intro fr h
    simp only [List.mem_cons, List.not_mem_nil, or_false, not_or] at h
    obtain ⟨h1, h2, h3, h4, h5⟩ := h
    unfold translateFinishReason
    simp [h1, h2, h3, h4, h5]
  · intro choice jsonMode c h
    unfold translateCandidate at h
    cases hm : choice.message.toolCalls.mapM toolCallToPart with
    | error e =>
      rw [hm] at h
      exact absurd h (by simp [exceptMap_error])
    | ok parts =>
      rw [hm, exceptMap_ok, Except.ok.injEq] at h
      subst h
      rfl

/-- Witness for C2 at concrete inputs: an unrecognized finish reason maps
to Unknown, and a concrete translated candidate carries the translated
finish reason of its choice. -/
theorem claimC2_witness :
    translateFinishReason "banana" = .unknown ∧
    (Candidate.mk 0 .length (Message.mk "model" [AiPart.text ""])).finishReason =
      translateFinishReason "length" :=
  ⟨claimC2_finishReason_total.2.2.2.2.2.2.1 "banana" (by decide),
   claimC2_finishReason_total.2.2.2.2.2.2.2
     { index := 0, message := {}, finishReason := "length" } false
     { index := 0, finishReason := .length, message := { role := "model", content := [AiPart.text ""] } }
     (by rfl)⟩

/-- Claim C6: role mapping round-trips for exactly the four defined
generic roles, and any other generic role makes the generic-to-vendor
mapping fail fatally (a Go panic carrying the unknown role). -/
theorem claimC6_role_roundtrip (r : String) :
    (r ∈ ["user", "system", "model", "tool"] →
      (fromAIRoleToOpenAIRole r).bind toOpenAIRole = .ok r) ∧
    (r ∉ ["user", "system", "model", "tool"] →
      fromAIRoleToOpenAIRole r = .error (.crash ("Unknown ai.Role: " ++ r))) := by
  constructor
  · intro h
    simp only [List.mem_cons, List.not_mem_nil, or_false] at h
    rcases h with rfl | rfl | rfl | rfl <;> rfl
  · intro h
    simp only [List.mem_cons, List.not_mem_nil, or_false, not_or] at h
    obtain ⟨h1, h2, h3, h4⟩ := h
    unfold fromAIRoleToOpenAIRole
    simp [h1, h2, h3, h4]

/-- Witness for C6: the round trip at `user` and the fatal failure at an
undefined role. -/
theorem claimC6_witness :
    (fromAIRoleToOpenAIRole "user").bind toOpenAIRole = .ok "user" ∧
    fromAIRoleToOpenAIRole "weird" = .error (.crash ("Unknown ai.Role: " ++ "weird")) :=
  ⟨(claimC6_role_roundtrip "user").1 (by decide),
   (claimC6_role_roundtrip "weird").2 (by decide)⟩

/-- Claim C7: encoding a string-keyed JSON-representable mapping with
`mapToJSONString` and decoding the result with `jsonStringToMap` yields
the same mapping (`wfF` states that every object level has
pairwise-distinct keys, which is inherent in being a mapping). -/
theorem claimC7_json_roundtrip (m : JSMap) (h : wfF m = true) :
    jsonStringToMap (mapToJSONString m) = .ok m :=
  jsonStringToMap_mapToJSONString m h

/-- Witness for C7 at a nested concrete mapping exercising numbers,
strings, arrays, booleans and a nested object. -/
theorem claimC7_witness :
    jsonStringToMap (mapToJSONString
        [("a", JS.num 42), ("b", JS.arr [JS.null, JS.str "x", JS.bool true]),
         ("c", JS.obj [("d", JS.num (-7))])]) =
      .ok [("a", JS.num 42), ("b", JS.arr [JS.null, JS.str "x", JS.bool true]),
           ("c", JS.obj [("d", JS.num (-7))])] :=
  claimC7_json_roundtrip _ (by simp [wfF, wfV, wfE])

/-- Claim C9: for every vendor behavior, model and input, `generate`
never delivers a chunk through the streaming callback: the recorded
callback trace is empty on every execution path. -/
theorem claimC9_callback_never_invoked {ε : Type}
    (chat : ChatCompletionRequest → Except ε ChatCompletionResponse)
    (model : String) (input : GenerateRequest) :
    (generate chat model input).2 = [] := by
  unfold generate
  cases h1 : convertRequest model input with
  | error e => rfl
  | ok req =>
    cases h2 : chat req with
    | error e => simp [h2]
    | ok resp =>
      cases h3 : translateResponse resp (requestJsonMode input.output) with
      | error e => simp [h2, h3]
      | ok r => simp [h2, h3]

/-- Claim C10: `convertMessages` dereferences `Content[0]` for System-role
messages and for Model-role messages without tool-request parts, so an
empty part list is an out-of-bounds crash (a Go runtime panic), not a
returned error. -/
theorem claimC10_empty_content_crash (rest : List Message) :
    convertMessages ({ role := "system", content := [] } :: rest) =
      .error (.crash "index out of range") ∧
    convertMessages ({ role := "model", content := [] } :: rest) =
      .error (.crash "index out of range") :=
  ⟨rfl, rfl⟩

/-- Claim C1: `convertRequest` forwards a `GenerationCommonConfig` field to
the vendor request only when it is non-zero; a zero `MaxOutputTokens`,
empty `StopSequences`, zero `Temperature` or zero `TopP` leaves the
corresponding vendor field at its zero default, and a non-zero value is
copied unchanged. -/
theorem claimC1_config_zero_gating (model : String) (input : GenerateRequest)
    (c : GenerationCommonConfig) (req : ChatCompletionRequest)
    (hc : input.config = .common c)
    (hok : convertRequest model input = .ok req) :
    (c.maxOutputTokens = 0 → req.maxTokens = 0) ∧
    (c.maxOutputTokens ≠ 0 → req.maxTokens = c.maxOutputTokens) ∧
    (c.stopSequences = [] → req.stop = []) ∧
    (c.stopSequences ≠ [] → req.stop = c.stopSequences) ∧
    (c.temperature = 0 → req.temperature = 0) ∧
    (c.temperature ≠ 0 → req.temperature = c.temperature) ∧
    (c.topP = 0 → req.topP = 0) ∧
    (c.topP ≠ 0 → req.topP = c.topP) := by
  unfold convertRequest at hok
  cases h1 : convertMessages input.messages with
  | error e =>
    rw [h1, exceptBind_error] at hok
    exact absurd hok (by simp)
  | ok msgs =>
    rw [h1, exceptBind_ok] at hok
    cases h2 : convertTools input.tools with
    | error e =>
      rw [h2, exceptBind_error] at hok
      exact absurd hok (by simp)
    | ok tools =>
      rw [h2, exceptBind_ok, hc] at hok
      obtain ⟨hmax, hstop, htemp, htop⟩ := applyOutputFormat_preserves _ _ _ _ hok
      and_intros <;> intro h
      · rw [hmax]; simp [applyCommonConfig, h]
      · rw [hmax]; simp [applyCommonConfig, h]
      · rw [hstop]; simp [applyCommonConfig, h]
      · rw [hstop]; simp [applyCommonConfig, List.length_pos, h]
      · rw [htemp]; simp [applyCommonConfig, h]
      · rw [htemp]; simp [applyCommonConfig, h]
      · rw [htop]; simp [applyCommonConfig, h]
      · rw [htop]; simp [applyCommonConfig, h]

/-- Witness for C1: converting a request with a fully non-zero config
copies every field; the hypotheses are discharged at a concrete input. -/
theorem claimC1_witness :
    convertRequest "gpt-4"
        { candidates := 1,
          config := .common { maxOutputTokens := 5, stopSequences := ["s"],
                              temperature := 1, topK := 0, topP := 2 } } =
      .ok { model := "gpt-4", n := 1, maxTokens := 5, stop := ["s"],
            temperature := 1, topP := 2 } ∧
    ({ model := "gpt-4", n := 1, maxTokens := 5, stop := ["s"],
       temperature := 1, topP := 2 } : ChatCompletionRequest).maxTokens = 5 := by
  constructor
  · rfl
  · exact (claimC1_config_zero_gating "gpt-4"
      { candidates := 1,
        config := .common { maxOutputTokens := 5, stopSequences := ["s"],
                            temperature := 1, topK := 0, topP := 2 } }
      { maxOutputTokens := 5, stopSequences := ["s"], temperature := 1, topK := 0, topP := 2 }
      { model := "gpt-4", n := 1, maxTokens := 5, stop := ["s"], temperature := 1, topP := 2 }
      rfl (by rfl)).2.1 (by decide)

/-- Claim C3: with Output.Format JSON or Text, `convertRequest` sets the
vendor response format (JSON object carrying the schema with the strict
flag, or plain text) exactly when the model is in the allow-list, leaves
it unset otherwise, and raises no error of its own: any error comes from
message conversion. -/
theorem claimC3_output_format_allowlist (model : String) (input : GenerateRequest)
    (o : OutputConfig) (ho : input.output = some o)
    (hf : o.format = "json" ∨ o.format = "text") :
    (∀ req, convertRequest model input = .ok req →
      req.responseFormat =
        if model ∈ modelsSupportingResponseFormats then
          some (if o.format = "json" then
                  { type := "json_object",
                    jsonSchema := some { schema := o.schema, strict := true } }
                 else { type := "text", jsonSchema := none })
        else none) ∧
    (∀ e, convertRequest model input = .error e →
      convertMessages input.messages = .error e) := by
  constructor
  · intro req hok
    unfold convertRequest at hok
    cases h1 : convertMessages input.messages with
    | error e =>
      rw [h1, exceptBind_error] at hok
      exact absurd hok (by simp)
    | ok msgs =>
      rw [h1, exceptBind_ok] at hok
      cases h2 : convertTools input.tools with
      | error e =>
        rw [h2, exceptBind_error] at hok
        exact absurd hok (by simp)
      | ok tools =>
        rw [h2, exceptBind_ok, ho] at hok
        by_cases hmem : model ∈ modelsSupportingResponseFormats
        · rcases hf with hjson | htext
          · simp only [applyOutputFormat, hjson, hmem, and_true] at hok
            rw [if_pos (show ("json" : String) ≠ "" from by decide)] at hok
            injection hok with hok2
            rw [← hok2]
            simp [hmem, hjson]
          · simp only [applyOutputFormat, htext, hmem, and_true] at hok
            rw [if_pos (show ("text" : String) ≠ "" from by decide)] at hok
            injection hok with hok2
            rw [← hok2]
            simp [hmem, htext]
        · simp only [applyOutputFormat] at hok
          rw [if_neg (by simp [hmem])] at hok
          injection hok with hok2
          rw [← hok2, applyCommonConfig_responseFormat]
          simp [hmem]
  · intro e herr
    unfold convertRequest at herr
    cases h1 : convertMessages input.messages with
    | error e2 =>
      rw [h1, exceptBind_error] at herr
      simp only [Except.error.injEq] at herr
      rw [← herr]
    | ok msgs =>
      rw [h1, exceptBind_ok] at herr
      obtain ⟨tools, h2⟩ := convertTools_never_errors input.tools
      rw [h2, exceptBind_ok, ho] at herr
      exfalso
      by_cases hmem : model ∈ modelsSupportingResponseFormats
      · rcases hf with hjson | htext
        · simp only [applyOutputFormat, hjson, hmem, and_true] at herr
          rw [if_pos (show ("json" : String) ≠ "" from by decide)] at herr
          exact absurd herr (by simp)
        · simp only [applyOutputFormat, htext, hmem, and_true] at herr
          rw [if_pos (show ("text" : String) ≠ "" from by decide)] at herr
          exact absurd herr (by simp)
      · simp only [applyOutputFormat] at herr
        rw [if_neg (by simp [hmem])] at herr
        exact absurd herr (by simp)

/-- Witness for C3: a JSON-output request against an allow-listed model
gets the JSON-object response format carrying the schema. -/
theorem claimC3_witness :
    ({ model := "gpt-4o", n := 1,
       responseFormat := some { type := "json_object",
                                jsonSchema := some { schema := [("t", JS.str "object")],
                                                     strict := true } } } :
        ChatCompletionRequest).responseFormat =
      some { type := "json_object",
             jsonSchema := some { schema := [("t", JS.str "object")], strict := true } } :=
  ((claimC3_output_format_allowlist "gpt-4o"
    { candidates := 1, output := some { format := "json", schema := [("t", JS.str "object")] } }
    { format := "json", schema := [("t", JS.str "object")] } rfl (Or.inl rfl)).1
    { model := "gpt-4o", n := 1,
      responseFormat := some { type := "json_object",
                               jsonSchema := some { schema := [("t", JS.str "object")],
                                                    strict := true } } }
    (by rfl)).trans (by
      rw [if_pos (show ("gpt-4o" : String) ∈ modelsSupportingResponseFormats from by decide)]
      rfl)

/-- Counterexample to claim C4 as stated: an invalid output format
(neither JSON, Text, nor empty) against a model outside the allow-list
does not make `convertRequest` return an error; the format is silently
ignored and the conversion succeeds. -/
theorem claimC4_counterexample :
    convertRequest "gpt-4" { candidates := 1, output := some { format := "banana" } } =
      .ok { model := "gpt-4", n := 1 } := by rfl

/-- Claim C4 (amended): an Output.Format other than JSON, Text or the
empty string makes `convertRequest` return the hard translation error
exactly when the target model is in the allow-list of format-capable
models; against any other model the invalid format is silently dropped
and no error is raised. -/
theorem claimC4_invalid_format (model : String) (input : GenerateRequest)
    (o : OutputConfig) (ho : input.output = some o)
    (h1 : o.format ≠ "json") (h2 : o.format ≠ "text") (h3 : o.format ≠ "")
    (msgs : List ChatCompletionMessage)
    (hm : convertMessages input.messages = .ok msgs) :
    (model ∈ modelsSupportingResponseFormats →
      convertRequest model input = .error (.failure "unknown part type in a request")) ∧
    (model ∉ modelsSupportingResponseFormats →
      ∃ req, convertRequest model input = .ok req ∧ req.responseFormat = none) := by
  obtain ⟨tools, ht⟩ := convertTools_never_errors input.tools
  unfold convertRequest
  rw [hm, exceptBind_ok, ht, exceptBind_ok, ho]
  constructor
  · intro hmem
    simp only [applyOutputFormat]
    rw [if_pos ⟨h3, hmem⟩, if_neg (by simpa using h1), if_neg (by simpa using h2)]
  · intro hmem
    refine ⟨applyCommonConfig
      { model := model, messages := msgs, tools := tools, n := input.candidates }
      input.config, ?_, ?_⟩
    · simp only [applyOutputFormat]
      rw [if_neg (by simp [hmem])]
    · rw [applyCommonConfig_responseFormat]

/-- Witness for the amended C4: an invalid format against an allow-listed
model is the hard error. -/
theorem claimC4_witness :
    convertRequest "gpt-4o" { candidates := 1, output := some { format := "banana" } } =
      .error (.failure "unknown part type in a request") :=
  (claimC4_invalid_format "gpt-4o"
    { candidates := 1, output := some { format := "banana" } }
    { format := "banana" } rfl (by decide) (by decide) (by decide) [] rfl).1 (by decide)

theorem mapM_toolCallToPart_forall (tcs : List ToolCall) (ps : List AiPart)
    (h : tcs.mapM toolCallToPart = .ok ps) :
    List.Forall₂ (fun (p : AiPart) (tc : ToolCall) =>
      ∃ m, jsonStringToMap tc.function.arguments = .ok m ∧
        p = .toolRequest tc.function.name m) ps tcs := by
  induction tcs generalizing ps with
  | nil =>
    simp only [List.mapM_nil, pure, Except.pure, Except.ok.injEq] at h
    subst h
    exact List.Forall₂.nil
  | cons tc t ih =>
    rw [List.mapM_cons] at h
    cases hx : toolCallToPart tc with
    | error e =>
      rw [hx] at h
      exact absurd h (by simp [bind, Except.bind])
    | ok p =>
      rw [hx] at h
      cases hxs : t.mapM toolCallToPart with
      | error e =>
        rw [hxs] at h
        exact absurd h (by simp [bind, Except.bind])
      | ok pt =>
        rw [hxs] at h
        simp only [bind, Except.bind, pure, Except.pure, Except.ok.injEq] at h
        subst h
        refine List.Forall₂.cons ?_ (ih pt hxs)
        unfold toolCallToPart at hx
        cases hj : jsonStringToMap tc.function.arguments with
        | error e =>
          rw [hj] at hx
          exact absurd hx (by simp [exceptMap_error])
        | ok m =>
          rw [hj, exceptMap_ok, Except.ok.injEq] at hx
          exact ⟨m, rfl, hx.symm⟩

/-- Claim C5: `translateCandidate` rebuilds the candidate message from the
vendor choice: with tool calls present, the content is exactly one
ToolRequest part per call (name copied, arguments JSON-decoded) and the
choice's text is discarded; with no tool calls, the content is a single
Data part (JSON mode) or Text part carrying the raw content string. -/
theorem claimC5_candidate_message (choice : ChatCompletionChoice) (jsonMode : Bool) :
    (choice.message.toolCalls = [] →
      translateCandidate choice jsonMode =
        .ok { index := choice.index,
              finishReason := translateFinishReason choice.finishReason,
              message := { role := "model",
                           content := [if jsonMode then AiPart.data choice.message.content
                                       else AiPart.text choice.message.content] } }) ∧
    (choice.message.toolCalls ≠ [] →
      ∀ c, translateCandidate choice jsonMode = .ok c →
        List.Forall₂ (fun (p : AiPart) (tc : ToolCall) =>
          ∃ m, jsonStringToMap tc.function.arguments = .ok m ∧
            p = .toolRequest tc.function.name m)
          c.message.content choice.message.toolCalls) := by
  constructor
  · intro hE
    unfold translateCandidate
    rw [hE]
    rfl
  · intro hne c hok
    unfold translateCandidate at hok
    cases hm : choice.message.toolCalls.mapM toolCallToPart with
    | error e =>
      rw [hm] at hok
      exact absurd hok (by simp [exceptMap_error])
    | ok ps =>
      rw [hm, exceptMap_ok, Except.ok.injEq] at hok
      have hF := mapM_toolCallToPart_forall _ _ hm
      have hlen : ps.length = choice.message.toolCalls.length := hF.length_eq
      have hpos : ps.length > 0 := by
        rw [hlen]
        exact List.length_pos.mpr hne
      rw [← hok]
      simpa [hpos] using hF

/-- Witness for C5: a choice carrying one tool call whose arguments decode
to a one-entry mapping; the accompanying text is discarded. -/
theorem claimC5_witness :
    List.Forall₂ (fun (p : AiPart) (tc : ToolCall) =>
        ∃ m, jsonStringToMap tc.function.arguments = .ok m ∧
          p = .toolRequest tc.function.name m)
      [AiPart.toolRequest "f" [("x", JS.num 1)]]
      [{ id := "f", type := "function",
         function := { name := "f",
                       arguments := String.mk [lbraceC, quoteC, 'x', quoteC, ':', '1', rbraceC] } }] :=
  (claimC5_candidate_message
    { index := 0, finishReason := "stop",
      message := { role := "assistant", content := "ignored",
                   toolCalls := [{ id := "f", type := "function",
                                   function := { name := "f",
                                                 arguments := String.mk [lbraceC, quoteC, 'x',
                                                   quoteC, ':', '1', rbraceC] } }] } }
    false).2 (by simp)
    { index := 0, finishReason := .stop,
      message := { role := "model", content := [AiPart.toolRequest "f" [("x", JS.num 1)]] } }
    (by rfl)

/-- Claim C8: after a successful `Init`, `DefineModel` with capabilities
omitted succeeds using the known-capability table exactly for names in the
table and otherwise fails with the unknown-model error while registering
nothing; with capabilities supplied it succeeds for every name. -/
theorem claimC8_defineModel (st0 st : PluginState) (cfg : Option Config) (env : String)
    (hinit : Init st0 cfg env = (st, .ok ())) :
    (∀ name mc, knownCaps.lookup name = some mc →
      DefineModel st name none =
        ({ st with registry :=
            (name, { label := "OpenAI - " ++ name, supports := mc }) :: st.registry },
         .ok { label := "OpenAI - " ++ name, supports := mc })) ∧
    (∀ name, knownCaps.lookup name = none →
      DefineModel st name none =
        (st, .error (.failure ("openai.DefineModel: called with unknown model \"" ++
          name ++ "\" and nil ModelCapabilities")))) ∧
    (∀ name c, DefineModel st name (some c) =
      ({ st with registry :=
          (name, { label := "OpenAI - " ++ name, supports := c }) :: st.registry },
       .ok { label := "OpenAI - " ++ name, supports := c })) := by
  have hst : st.initted = true := by
    unfold Init at hinit
    split_ifs at hinit <;> simp only [Prod.mk.injEq] at hinit
    · exact absurd hinit.2 (by simp)
    · exact absurd hinit.2 (by simp)
    · rw [← hinit.1]
  have hnotfalse : ¬(st.initted = false) := by simp [hst]
  refine ⟨?_, ?_, ?_⟩
  · intro name mc hlk
    unfold DefineModel
    rw [if_neg hnotfalse, hlk]
    rfl
  · intro name hlk
    unfold DefineModel
    rw [if_neg hnotfalse, hlk]
  · intro name c
    unfold DefineModel
    rw [if_neg hnotfalse]
    rfl

/-- Witness for C8: after a concrete successful `Init`, defining an
unknown model with capabilities omitted fails with the unknown-model
error and leaves the registry unchanged. -/
theorem claimC8_witness :
    DefineModel
        { initted := true,
          registry := knownCaps.map (fun p =>
            (p.1, { label := "OpenAI - " ++ p.1, supports := p.2 })) }
        "zzz" none =
      ({ initted := true,
         registry := knownCaps.map (fun p =>
           (p.1, { label := "OpenAI - " ++ p.1, supports := p.2 })) },
       .error (.failure ("openai.DefineModel: called with unknown model \"" ++
         "zzz" ++ "\" and nil ModelCapabilities"))) :=
  (claimC8_defineModel {} _ (some { apiKey := "k" }) "" (by rfl)).2.1 "zzz" (by rfl)
